import Mathlib

/-!
Verification of the Agent-Environment-Protocol (AEP) core against its
natural-language specification.

Each definition below is a shallow embedding of a function of the Python
source (file and symbol named in its doc comment).  External effects
(filesystem contents, subprocess outcomes, the `shlex` library) are passed
in explicitly as values or oracle functions, so that every definition is an
executable Lean function.  Machine-independent Python string primitives
(`str.strip`, `str.lower`, `str.isalnum`, …) are modelled on the code-point
ranges the theorems actually evaluate; each model documents its domain.
-/

namespace AEP

/-! ## Python string primitives -/

/-- `str.strip()` on a list of characters: drop leading and trailing
whitespace.  Models Python's default strip for the ASCII whitespace
characters (space, tab, CR, LF), which are the only whitespace characters
appearing in the inputs evaluated below. -/
def pyStripList (l : List Char) : List Char :=
  ((l.dropWhile Char.isWhitespace).reverse.dropWhile Char.isWhitespace).reverse

/-- `str.strip()` on a Lean `String`. -/
def pyStrip (s : String) : String :=
  ⟨pyStripList s.data⟩

/-- Does `sub` occur as a contiguous sublist of `l`? -/
def listContainsSub (sub : List Char) : List Char → Bool
  | [] => sub.isEmpty
  | c :: rest => sub.isPrefixOf (c :: rest) || listContainsSub sub rest

/-- `sub in s` for strings (Python substring containment). -/
def pyInStr (sub s : String) : Bool :=
  listContainsSub sub.data s.data

/-- `c in s` for a single character (Python containment). -/
def pyInChar (c : Char) (s : String) : Bool :=
  s.data.contains c

/-- `s.startswith(pre)`. -/
def pyStartsWith (s pre : String) : Bool :=
  pre.data.isPrefixOf s.data

/-- `s.endswith(suf)`. -/
def pyEndsWith (s suf : String) : Bool :=
  suf.data.reverse.isPrefixOf s.data.reverse

/-- `len(s)`: the number of code points. -/
def pyLen (s : String) : Nat := s.data.length

/-- `s[a:b]`: the slice of code points from `a` (inclusive) to `b`
(exclusive), for `0 ≤ a ≤ b`. -/
def pySlice (s : String) (a b : Nat) : String :=
  ⟨(s.data.drop a).take (b - a)⟩

/-- `s.find(sub, start)` helper: first index `≥ i` at which `sub` occurs
in the remaining characters. -/
def findSub (sub : List Char) : List Char → Nat → Option Nat
  | [], i => if sub.isEmpty then some i else Option.none
  | c :: rest, i =>
    if sub.isPrefixOf (c :: rest) then some i else findSub sub rest (i + 1)

/-- Python `s.find(sub, start)`: index of the first occurrence at or after
`start`, `-1` if absent. -/
def pyFind (s sub : String) (start : Nat) : Int :=
  match findSub sub.data (s.data.drop start) start with
  | some i => (i : Int)
  | Option.none => -1

/-- `s.split(sep, 1)` for a one-character separator, returning the parts
before and after the first occurrence.  Only meaningful when the separator
occurs in `s` (the callers below guard with `pyInChar`). -/
def pySplitOnce (s : String) (c : Char) : String × String :=
  (⟨s.data.takeWhile (fun x => x != c)⟩, ⟨(s.data.dropWhile (fun x => x != c)).drop 1⟩)

/-! ### Python's string ordering

Python compares strings lexicographically by code point; `sorted` on a set
of strings uses this order.  Lean's built-in `String` order does not reduce
in the kernel, so we model the order structurally on the character list. -/

/-- Lexicographic comparison of character lists by code point. -/
def listLexLe : List Char → List Char → Bool
  | [], _ => true
  | _ :: _, [] => false
  | a :: as, b :: bs =>
    if a < b then true else if b < a then false else listLexLe as bs

/-- `a <= b` for Python strings. -/
def strLe (a b : String) : Prop := listLexLe a.data b.data = true

instance : DecidableRel strLe := fun _ _ => by unfold strLe; infer_instance

theorem listLexLe_total (a b : List Char) :
    listLexLe a b = true ∨ listLexLe b a = true := by
  induction a generalizing b with
  | nil => left; rfl
  | cons x xs ih =>
    cases b with
    | nil => right; rfl
    | cons y ys =>
      by_cases h1 : x < y
      · left; simp [listLexLe, h1]
      · by_cases h2 : y < x
        · right; simp [listLexLe, h2, h1]
        · rcases ih ys with h | h
          · left; simp [listLexLe, h1, h2, h]
          · right; simp [listLexLe, h1, h2, h]

theorem charEqOfNotLt {x y : Char} (h1 : ¬ x < y) (h2 : ¬ y < x) : x = y :=
  le_antisymm (le_of_not_lt h2) (le_of_not_lt h1)

theorem listLexLe_trans {a b c : List Char} (hab : listLexLe a b = true)
    (hbc : listLexLe b c = true) : listLexLe a c = true := by
  induction a generalizing b c with
  | nil => rfl
  | cons x xs ih =>
    cases b with
    | nil => simp [listLexLe] at hab
    | cons y ys =>
      cases c with
      | nil => simp [listLexLe] at hbc
      | cons z zs =>
        by_cases hxy : x < y
        · by_cases hyz : y < z
          · simp [listLexLe, lt_trans hxy hyz]
          · by_cases hzy : z < y
            · simp [listLexLe, hyz, hzy] at hbc
            · cases charEqOfNotLt hzy hyz
              simp [listLexLe, hxy]
        · by_cases hyx : y < x
          · simp [listLexLe, hxy, hyx] at hab
          · cases charEqOfNotLt hyx hxy
            by_cases hyz : x < z
            · simp [listLexLe, hyz]
            · by_cases hzy : z < x
              · simp [listLexLe, hyz, hzy] at hbc
              · simp [listLexLe, hxy, hyx] at hab
                simp [listLexLe, hyz, hzy] at hbc ⊢
                exact ih hab hbc

theorem listLexLe_antisymm {a b : List Char} (hab : listLexLe a b = true)
    (hba : listLexLe b a = true) : a = b := by
  induction a generalizing b with
  | nil =>
    cases b with
    | nil => rfl
    | cons y ys => simp [listLexLe] at hba
  | cons x xs ih =>
    cases b with
    | nil => simp [listLexLe] at hab
    | cons y ys =>
      by_cases hxy : x < y
      · simp [listLexLe, hxy, lt_asymm hxy] at hba
      · by_cases hyx : y < x
        · simp [listLexLe, hxy, hyx] at hab
        · cases charEqOfNotLt hxy hyx
          simp [listLexLe, hxy, hyx] at hab hba
          rw [ih hab hba]

instance : IsTotal String strLe :=
  ⟨fun a b => listLexLe_total a.data b.data⟩

instance : IsTrans String strLe :=
  ⟨fun _ _ _ hab hbc => listLexLe_trans hab hbc⟩

instance : IsAntisymm String strLe :=
  ⟨fun a b hab hba => by
    cases a; cases b
    exact congrArg String.mk (listLexLe_antisymm hab hba)⟩

/-- Python's `sorted` on a collection of distinct strings. -/
def sortStrings (l : List String) : List String := List.insertionSort strLe l

end AEP

namespace AEP

/-! ## `ExecResult` (src/aep/core/executor.py, `ExecResult`) -/

/-- `ExecResult` value record: `{stdout, stderr, return_code}`. -/
structure ExecResult where
  stdout : String
  stderr : String
  return_code : Int
  deriving DecidableEq, Repr

/-- The dataclass defaults: `ExecResult()` is `("", "", 0)`. -/
def ExecResult.empty : ExecResult := ⟨"", "", 0⟩

end AEP

namespace AEP

/-! ## Manifest merging (src/aep/core/config/handlers/base.py,
`BaseHandler.save_requirements`)

A manifest file is modelled by its list of lines, i.e. the result of
Python's `text.split("\n")`.  This representation is faithful as long as no
written entry itself contains a newline; the idempotence theorem below
makes that hypothesis explicit. -/

/-- The dependency entries parsed from a manifest's lines (in file order,
duplicates possible): `line.strip() for line in text.split("\n") if
line.strip() and not line.startswith("#")`.  The Python code collects them
into a `set`; the set's distinct elements are `(manifestEntries lines).dedup`. -/
def manifestEntries (lines : List String) : List String :=
  (lines.filter (fun l => !(pyStrip l == "") && !(pyStartsWith l "#"))).map pyStrip

/-- `BaseHandler.save_requirements`: if `dependencies` is empty return
without writing; otherwise add the dependencies to the set of existing
entries and write the sorted set, one entry per line with a trailing
newline (which shows up as a final empty line). -/
def saveRequirements (lines : List String) (dependencies : List String) :
    List String :=
  if dependencies = [] then lines
  else sortStrings ((manifestEntries lines ++ dependencies).dedup) ++ [""]

/-- An entry survives the manifest write/read round trip: it is already
stripped, non-empty, contains no newline, and does not start with `#`. -/
def cleanEntry (e : String) : Prop :=
  pyStrip e = e ∧ e ≠ "" ∧ ¬ pyStartsWith e "#" = true ∧ ¬ pyInChar '\n' e = true

instance (e : String) : Decidable (cleanEntry e) := by
  unfold cleanEntry; infer_instance

end AEP

namespace AEP

/-! ## Session environment and the `export` command
(src/aep/core/session.py, `AEPSession._handle_export`)

The session's `env` is a Python dict; it is modelled as an association
list in insertion order.  `d[k] = v` updates the value in place when the
key exists (keeping its position) and appends otherwise. -/

/-- Python `dict.__setitem__` on an insertion-ordered association list. -/
def dictSet (m : List (String × String)) (k v : String) :
    List (String × String) :=
  if m.any (fun p => p.1 == k) then
    m.map (fun p => if p.1 == k then (k, v) else p)
  else m ++ [(k, v)]

/-- The body of `_handle_export`'s loop: process arguments left to right;
`K=V` is applied via `env[key] = value`; the first argument without `=`
returns the error result at once, keeping the updates made so far. -/
def exportLoop (env : List (String × String)) :
    List String → ExecResult × List (String × String)
  | [] => (ExecResult.empty, env)
  | a :: rest =>
    if pyInChar '=' a then
      let kv := pySplitOnce a '='
      exportLoop (dictSet env kv.1 kv.2) rest
    else
      (⟨"", s!"无效格式: {a}，应为 KEY=VALUE", 1⟩, env)

/-- `AEPSession._handle_export`: with no arguments, list the session env
(`(无自定义环境变量)` when empty); otherwise run the assignment loop. -/
def handleExport (env : List (String × String)) (args : List String) :
    ExecResult × List (String × String) :=
  match args with
  | [] =>
    let out := String.intercalate "\n" (env.map (fun p => p.1 ++ "=" ++ p.2))
    (⟨if out.isEmpty then "(无自定义环境变量)" else out, "", 0⟩, env)
  | _ :: _ => exportLoop env args

/-- Applying a list of `K=V` assignments left to right. -/
def applyAssigns (env : List (String × String)) (args : List String) :
    List (String × String) :=
  args.foldl (fun e a => let kv := pySplitOnce a '='; dictSet e kv.1 kv.2) env

end AEP

namespace AEP

/-! ## REPL-style snippet execution
(src/aep/core/executor.py, `ToolExecutor._build_wrapper_script`, function
`_repl_exec` of the generated wrapper)

The wrapper parses the user snippet with `ast.parse` and executes it with
last-expression echo.  The snippet is modelled as an already-parsed list of
statements over a small expression language; evaluation returns `Option`
(`Option.none` models a raised error, which the wrapper reports on stderr
with a non-zero exit). -/

/-- Python values occurring in the model (`PyVal.none` is Python `None`). -/
inductive PyVal where
  | none
  | int (n : Int)
  | str (s : String)
  | bool (b : Bool)
  deriving DecidableEq, Repr

/-- Python `str()` of a value, as `print(result)` renders it. -/
def pyValStr : PyVal → String
  | PyVal.none => "None"
  | PyVal.int n => toString n
  | PyVal.str s => s
  | PyVal.bool b => if b then "True" else "False"

/-- Expressions of the modelled snippet language. -/
inductive PyExpr where
  | lit (v : PyVal)
  | var (x : String)
  | add (a b : PyExpr)
  deriving DecidableEq, Repr

/-- Variable environments of the wrapper's `globals()`. -/
abbrev PyEnv := List (String × PyVal)

/-- Python dict update for the globals mapping. -/
def envSet (m : PyEnv) (k : String) (v : PyVal) : PyEnv :=
  if m.any (fun p => p.1 == k) then
    m.map (fun p => if p.1 == k then (k, v) else p)
  else m ++ [(k, v)]

/-- `eval` of an expression; `Option.none` models a raised `NameError` or
`TypeError`. -/
def evalExpr (env : PyEnv) : PyExpr → Option PyVal
  | PyExpr.lit v => some v
  | PyExpr.var x =>
    match env.find? (fun p => p.1 == x) with
    | some p => some p.2
    | Option.none => Option.none
  | PyExpr.add a b => do
    let va ← evalExpr env a
    let vb ← evalExpr env b
    match va, vb with
    | PyVal.int m, PyVal.int n => some (PyVal.int (m + n))
    | PyVal.str s, PyVal.str t => some (PyVal.str (s ++ t))
    | _, _ => Option.none

/-- Statements of the modelled snippet language.  `exprS` is a bare
expression statement (`ast.Expr`). -/
inductive PyStmt where
  | assign (x : String) (e : PyExpr)
  | printS (e : PyExpr)
  | exprS (e : PyExpr)
  deriving DecidableEq, Repr

/-- Whether a statement is an `ast.Expr` node. -/
def isExprStmt : PyStmt → Bool
  | PyStmt.exprS _ => true
  | _ => false

/-- `exec` of a single statement; yields the updated globals and the lines
the statement prints.  A bare expression statement inside a block is
evaluated and its value discarded (plain `exec` does not echo). -/
def execStmt (env : PyEnv) : PyStmt → Option (PyEnv × List String)
  | PyStmt.assign x e => do
    let v ← evalExpr env e
    some (envSet env x v, [])
  | PyStmt.printS e => do
    let v ← evalExpr env e
    some (env, [pyValStr v])
  | PyStmt.exprS e => do
    let _ ← evalExpr env e
    some (env, [])

/-- `exec` of a statement block (`compile(mod, "<code>", "exec")`). -/
def execBlock (env : PyEnv) : List PyStmt → Option (PyEnv × List String)
  | [] => some (env, [])
  | s :: rest => do
    let (env1, out1) ← execStmt env s
    let (env2, out2) ← execBlock env1 rest
    some (env2, out1 ++ out2)

/-- The wrapper's `_repl_exec`: if the snippet's final statement is an
expression, execute the preceding statements as a block (the source guards
the empty block with `len(tree.body) > 1`, which is equivalent to executing
the empty block), evaluate the final expression, and print its value
exactly when it is not `None`; otherwise execute the whole snippet as a
block.  The empty snippet does nothing. -/
def replExec (env : PyEnv) (stmts : List PyStmt) :
    Option (PyEnv × List String) :=
  match stmts.getLast? with
  | Option.none => some (env, [])
  | some lastS =>
    match lastS with
    | PyStmt.exprS e => do
      let (env1, out1) ← execBlock env stmts.dropLast
      let v ← evalExpr env1 e
      some (env1, out1 ++ (if v = PyVal.none then [] else [pyValStr v]))
    | _ => execBlock env stmts

end AEP

namespace AEP

/-! ## Executors and the interpreter session
(src/aep/core/executor.py `ToolExecutor` / `SkillExecutor`,
src/aep/core/session.py `AEPSession`)

External effects — the filesystem, `shlex.split`, path resolution, and the
outcome of every spawned child process — enter through a `World` record of
oracle values, so `AEPSession.exec` becomes a pure function.  A Python
exception escaping a function is an `Except.error`; code that catches and
normalizes exceptions returns `Except.ok`. -/

/-- An uncaught Python exception. -/
inductive PyErr where
  | runtimeError (msg : String)
  deriving DecidableEq, Repr

/-- The outcome of `subprocess.run`: normal completion with captured
output, `TimeoutExpired`, or some other raised exception (message only). -/
inductive ChildOutcome where
  | completed (stdout stderr : String) (rc : Int)
  | timeout
  | spawnError (msg : String)
  deriving DecidableEq, Repr

/-- Oracles for everything outside the session's own logic. -/
structure World where
  /-- `shlex.split`; `.error` is the `ValueError` it may raise. -/
  shlexSplit : String → Except String (List String)
  /-- `Path.resolve()` of a path string. -/
  resolve : String → String
  pathExists : String → Bool
  isDir : String → Bool
  /-- Content of `tools/index.md` when present. -/
  toolsIndex : Option String
  /-- Content of `tools/<name>.md` when present. -/
  toolDoc : String → Option String
  /-- Content of `tools/<name>.py` when present. -/
  toolPy : String → Option String
  /-- Whether `tools/.venv` exists. -/
  toolsVenvExists : Bool
  /-- Whether a Python binary is found inside `tools/.venv`. -/
  toolsPythonFound : Bool
  /-- Outcome of running the tool wrapper subprocess. -/
  toolChild : ChildOutcome
  /-- Content of `skills/index.md` when present. -/
  skillsIndex : Option String
  /-- Whether `skills/<name>` is a directory. -/
  skillDirIsDir : String → Bool
  /-- Content of `skills/<name>/SKILL.md` when present. -/
  skillMd : String → Option String
  /-- Content of `skills/<name>/README.md` when present. -/
  readmeMd : String → Option String
  /-- Whether `skills/<path>` exists. -/
  skillScriptExists : String → Bool
  /-- Whether `skills/<name>/.venv` exists. -/
  skillVenvExists : String → Bool
  /-- Whether a Python binary is found inside `skills/<name>/.venv`. -/
  skillPythonFound : String → Bool
  /-- Outcome of running the skill subprocess. -/
  skillChild : ChildOutcome
  /-- Outcome of the shell passthrough subprocess. -/
  shellChild : ChildOutcome

/-- Session state: current directory and per-session environment. -/
structure SessionState where
  workspace : String
  cwd : String
  env : List (String × String)
  deriving DecidableEq, Repr

/-- `ToolExecutor.ensure_venv` composed with `_get_python`: raises
`RuntimeError` when `tools/.venv` is missing, or when no Python binary is
found inside it. -/
def toolEnsureVenv (w : World) : Except PyErr Unit :=
  if !w.toolsVenvExists then
    Except.error (PyErr.runtimeError "tools venv 不存在，请在配置阶段创建 (.venv)")
  else if !w.toolsPythonFound then
    Except.error (PyErr.runtimeError "未找到 venv Python: tools/.venv")
  else Except.ok ()

/-- `ToolExecutor.run`: `ensure_venv` is called before the `try` block, so
its exception propagates; everything inside the `try` is normalized to an
`ExecResult` (timeout → 124, other exceptions → stderr and code 1). -/
def toolExecutorRun (w : World) (code : String) : Except PyErr ExecResult := do
  let _ ← toolEnsureVenv w
  let _ := code
  match w.toolChild with
  | ChildOutcome.completed out err rc => Except.ok ⟨out, err, rc⟩
  | ChildOutcome.timeout => Except.ok ⟨"", "执行超时 (60s)", 124⟩
  | ChildOutcome.spawnError e => Except.ok ⟨"", s!"执行错误: {e}", 1⟩

/-- `SkillExecutor.ensure_venv` composed with `_get_python` for one skill. -/
def skillEnsureVenv (w : World) (skillName : String) : Except PyErr Unit :=
  if !w.skillVenvExists skillName then
    Except.error (PyErr.runtimeError
      s!"技能 venv 不存在: {skillName}，请在配置阶段创建 (.venv)")
  else if !w.skillPythonFound skillName then
    Except.error (PyErr.runtimeError s!"未找到 venv Python: skills/{skillName}/.venv")
  else Except.ok ()

/-- `SkillExecutor.run`: every failure, including a missing skill venv, is
caught and normalized into an `ExecResult`. -/
def skillExecutorRun (w : World) (scriptPath : String) (args : List String) :
    ExecResult :=
  let _ := args
  let skillName :=
    if pyInChar '/' scriptPath then (pySplitOnce scriptPath '/').1 else scriptPath
  if !w.skillDirIsDir skillName then ⟨"", s!"技能不存在: {skillName}", 1⟩
  else if !w.skillScriptExists scriptPath then ⟨"", s!"脚本不存在: {scriptPath}", 1⟩
  else
    match skillEnsureVenv w skillName with
    | Except.error (PyErr.runtimeError msg) => ⟨"", s!"创建虚拟环境失败: {msg}", 1⟩
    | Except.ok _ =>
      match w.skillChild with
      | ChildOutcome.completed out err rc => ⟨out, err, rc⟩
      | ChildOutcome.timeout => ⟨"", "执行超时 (300s)", 124⟩
      | ChildOutcome.spawnError e => ⟨"", s!"执行错误: {e}", 1⟩

/-- `AEPSession._extract_quoted_code`: strip one layer of triple or single
quoting, else `Option.none`. -/
def extractQuotedCode (s : String) : Option String :=
  if pyStartsWith s "\"\"\"" && pyEndsWith s "\"\"\"" && decide (6 ≤ pyLen s) then
    some (pySlice s 3 (pyLen s - 3))
  else if pyStartsWith s "'''" && pyEndsWith s "'''" && decide (6 ≤ pyLen s) then
    some (pySlice s 3 (pyLen s - 3))
  else if pyStartsWith s "\"" && pyEndsWith s "\"" && decide (2 ≤ pyLen s) then
    some (pySlice s 1 (pyLen s - 1))
  else if pyStartsWith s "'" && pyEndsWith s "'" && decide (2 ≤ pyLen s) then
    some (pySlice s 1 (pyLen s - 1))
  else Option.none

/-- `AEPSession._handle_tools_run` (the `tools run ` special case). -/
def handleToolsRun (w : World) (codeArg : String) : Except PyErr ExecResult :=
  let codeArg := pyStrip codeArg
  if codeArg = "" then
    Except.ok ⟨"", "Usage: tools run \"<python_code>\"", 1⟩
  else
    match extractQuotedCode codeArg with
    | Option.none =>
      Except.ok ⟨"", "代码必须用引号包裹: tools run \"code\" 或 tools run '''code'''", 1⟩
    | some code => toolExecutorRun w code

/-- `AEPSession._tools_info`: the `.md` sidecar, else the module's top
docstring, else `ToolNotFound`. -/
def toolsInfo (w : World) (name : String) : ExecResult :=
  match w.toolDoc name with
  | some content => ⟨content, "", 0⟩
  | Option.none =>
    match w.toolPy name with
    | some content =>
      if pyStartsWith content "\"\"\"" then
        let e := pyFind content "\"\"\"" 3
        if 0 < e then ⟨pyStrip (pySlice content 3 e.toNat), "", 0⟩
        else ⟨s!"工具 {name} 存在，但无文档。", "", 0⟩
      else ⟨s!"工具 {name} 存在，但无文档。", "", 0⟩
    | Option.none => ⟨"", s!"工具不存在: {name}", 1⟩

/-- `AEPSession._handle_tools` (the `shlex`-split route). -/
def handleTools (w : World) (args : List String) : Except PyErr ExecResult :=
  match args with
  | [] =>
    Except.ok ⟨"",
      "Usage: tools <list|info|run> [args]\n" ++
      "  tools list             - 列出所有工具\n" ++
      "  tools info <name>      - 查看工具详情\n" ++
      "  tools run \"<code>\"     - 执行 Python 代码", 1⟩
  | sub :: rest =>
    if sub = "list" then
      match w.toolsIndex with
      | some content => Except.ok ⟨content, "", 0⟩
      | Option.none => Except.ok ⟨"_暂无工具_\n", "", 0⟩
    else if sub = "info" then
      match rest with
      | [] => Except.ok ⟨"", "Usage: tools info <name>", 1⟩
      | name :: _ => Except.ok (toolsInfo w name)
    else if sub = "run" then
      match rest with
      | [] => Except.ok ⟨"", "Usage: tools run \"<python_code>\"", 1⟩
      | code :: _ => toolExecutorRun w code
    else Except.ok ⟨"", s!"未知子命令: {sub}", 1⟩

/-- `AEPSession._skills_info`. -/
def skillsInfo (w : World) (name : String) : ExecResult :=
  if !w.skillDirIsDir name then ⟨"", s!"技能不存在: {name}", 1⟩
  else
    match w.skillMd name with
    | some content => ⟨content, "", 0⟩
    | Option.none =>
      match w.readmeMd name with
      | some content => ⟨content, "", 0⟩
      | Option.none => ⟨s!"技能 {name} 存在，但无文档。", "", 0⟩

/-- `AEPSession._handle_skills`. -/
def handleSkills (w : World) (args : List String) : ExecResult :=
  match args with
  | [] =>
    ⟨"",
     "Usage: skills <list|info|run> [args]\n" ++
     "  skills list                  - 列出所有技能\n" ++
     "  skills info <name>           - 查看技能详情\n" ++
     "  skills run <path.py> [args]  - 执行技能脚本", 1⟩
  | sub :: rest =>
    if sub = "list" then
      match w.skillsIndex with
      | some content => ⟨content, "", 0⟩
      | Option.none => ⟨"_暂无技能_\n", "", 0⟩
    else if sub = "info" then
      match rest with
      | [] => ⟨"", "Usage: skills info <name>", 1⟩
      | name :: _ => skillsInfo w name
    else if sub = "run" then
      match rest with
      | [] => ⟨"", "Usage: skills run <path.py> [args]", 1⟩
      | scriptPath :: scriptArgs => skillExecutorRun w scriptPath scriptArgs
    else ⟨"", s!"未知子命令: {sub}", 1⟩

/-- `AEPSession._handle_cd`. -/
def handleCd (w : World) (st : SessionState) (args : List String) :
    ExecResult × SessionState :=
  match args with
  | [] => (⟨st.workspace, "", 0⟩, { st with cwd := st.workspace })
  | target :: _ =>
    let raw :=
      if pyStartsWith target "/" ||
          (decide (1 < pyLen target) && (target.data.drop 1).head? == some ':') then
        target
      else st.cwd ++ "/" ++ target
    let newPath := w.resolve raw
    if !w.pathExists newPath then (⟨"", s!"目录不存在: {newPath}", 1⟩, st)
    else if !w.isDir newPath then (⟨"", s!"不是目录: {newPath}", 1⟩, st)
    else (⟨newPath, "", 0⟩, { st with cwd := newPath })

/-- `AEPSession._shell_passthrough`. -/
def shellPassthrough (w : World) : ExecResult :=
  match w.shellChild with
  | ChildOutcome.completed out err rc => ⟨out, err, rc⟩
  | ChildOutcome.timeout => ⟨"", "执行超时 (60s)", 124⟩
  | ChildOutcome.spawnError e => ⟨"", s!"执行错误: {e}", 1⟩

/-- `AEPSession.exec`, the session's single public entry point.  The
result is the `ExecResult` together with the updated session state; an
`Except.error` is a Python exception escaping `exec`. -/
def sessionExec (w : World) (st : SessionState) (command : String) :
    Except PyErr (ExecResult × SessionState) :=
  let command := pyStrip command
  if command = "" then Except.ok (ExecResult.empty, st)
  else if pyStartsWith command "tools run " then do
    let r ← handleToolsRun w (pySlice command 10 (pyLen command))
    Except.ok (r, st)
  else
    match w.shlexSplit command with
    | Except.error e => Except.ok (⟨"", s!"命令解析错误: {e}", 1⟩, st)
    | Except.ok [] => Except.ok (ExecResult.empty, st)
    | Except.ok (cmd :: args) =>
      if cmd = "tools" then do
        let r ← handleTools w args
        Except.ok (r, st)
      else if cmd = "skills" then Except.ok (handleSkills w args, st)
      else if cmd = "cd" then Except.ok (handleCd w st args)
      else if cmd = "export" then
        let re := handleExport st.env args
        Except.ok (re.1, { st with env := re.2 })
      else Except.ok (shellPassthrough w, st)

end AEP

namespace AEP

/-! ## Skill metadata validation
(src/aep/core/config/handlers/skills_util/validator.py)

The validator works on parsed frontmatter: a Python dict modelled as an
association list with distinct keys (`FrontValue.other` stands for any
non-string YAML value).  The Python text primitives it uses are modelled
as follows, faithfully for every code point up to U+00FF, the range all
theorems below evaluate on:

* `str.isalnum()` — ASCII letters and digits, the Latin-1 alphanumerics
  (`ª ² ³ µ ¹ º ¼ ½ ¾` and the letters U+00C0–U+00FF except `×` and `÷`);
  code points above U+00FF are outside the modelled domain.
* `str.lower()` — ASCII `A–Z` and the Latin-1 uppercase letters
  U+00C0–U+00DE (except `×`) map down by 32; everything else ≤ U+00FF is
  fixed.
* `unicodedata.normalize("NFKC", ·)` — the identity; correct on ASCII and
  on Latin-1 letters, which are NFKC-stable (no input below contains a
  Latin-1 compatibility character such as `²` or `µ`). -/

/-- Python `str.isalnum` per character, on code points ≤ U+00FF. -/
def pyIsAlnumChar (c : Char) : Bool :=
  let n := c.toNat
  decide ((48 ≤ n ∧ n ≤ 57) ∨ (65 ≤ n ∧ n ≤ 90) ∨ (97 ≤ n ∧ n ≤ 122) ∨
    n = 0xAA ∨ n = 0xB2 ∨ n = 0xB3 ∨ n = 0xB5 ∨ n = 0xB9 ∨ n = 0xBA ∨
    n = 0xBC ∨ n = 0xBD ∨ n = 0xBE ∨
    (0xC0 ≤ n ∧ n ≤ 0xFF ∧ n ≠ 0xD7 ∧ n ≠ 0xF7))

/-- Python `str.lower` per character, on code points ≤ U+00FF. -/
def pyLowerChar (c : Char) : Char :=
  let n := c.toNat
  if (65 ≤ n ∧ n ≤ 90) ∨ (0xC0 ≤ n ∧ n ≤ 0xDE ∧ n ≠ 0xD7) then
    Char.ofNat (n + 32)
  else c

/-- Python `str.lower` on a string. -/
def pyLowerStr (s : String) : String := ⟨s.data.map pyLowerChar⟩

/-- `unicodedata.normalize("NFKC", s)`: the identity on the modelled
domain (ASCII and Latin-1 letters are NFKC-stable). -/
def pyNFKC (s : String) : String := s

/-- A frontmatter value: a string, or any non-string YAML value. -/
inductive FrontValue where
  | str (s : String)
  | other
  deriving DecidableEq, Repr

/-- Parsed frontmatter: a dict, as an association list with distinct keys. -/
abbrev Metadata := List (String × FrontValue)

/-- The checks `_validate_name` performs on the stripped, NFKC-normalized
name `n`, in source order. -/
def validateNameChecks (n : String) (skillDir : Option String) : List String :=
  (if 64 < pyLen n then
    [s!"Skill name '{n}' exceeds 64 character limit ({pyLen n} chars)"]
   else []) ++
  (if n ≠ pyLowerStr n then [s!"Skill name '{n}' must be lowercase"] else []) ++
  (if pyStartsWith n "-" || pyEndsWith n "-" then
    ["Skill name cannot start or end with a hyphen"]
   else []) ++
  (if pyInStr "--" n then ["Skill name cannot contain consecutive hyphens"]
   else []) ++
  (if !(n.data.all (fun c => pyIsAlnumChar c || c == '-')) then
    [s!"Skill name '{n}' contains invalid characters. " ++
      "Only letters, digits, and hyphens are allowed."]
   else []) ++
  (match skillDir with
   | some d =>
     if pyNFKC d ≠ n then [s!"Directory name '{d}' must match skill name '{n}'"]
     else []
   | Option.none => [])

/-- `_validate_name`: reject empty or non-string names outright, then
normalize (strip + NFKC) and run the checks. -/
def validateName (v : FrontValue) (skillDir : Option String) : List String :=
  match v with
  | FrontValue.other => ["Field 'name' must be a non-empty string"]
  | FrontValue.str s =>
    if s = "" ∨ pyStrip s = "" then ["Field 'name' must be a non-empty string"]
    else validateNameChecks (pyNFKC (pyStrip s)) skillDir

/-- `_validate_description`. -/
def validateDescription (v : FrontValue) : List String :=
  match v with
  | FrontValue.other => ["Field 'description' must be a non-empty string"]
  | FrontValue.str s =>
    if s = "" ∨ pyStrip s = "" then ["Field 'description' must be a non-empty string"]
    else if 1024 < pyLen s then
      [s!"Description exceeds 1024 character limit ({pyLen s} chars)"]
    else []

/-- `_validate_compatibility`. -/
def validateCompatibility (v : FrontValue) : List String :=
  match v with
  | FrontValue.other => ["Field 'compatibility' must be a string"]
  | FrontValue.str s =>
    if 500 < pyLen s then
      [s!"Compatibility exceeds 500 character limit ({pyLen s} chars)"]
    else []

/-- `ALLOWED_FIELDS`. -/
def allowedFields : List String :=
  ["name", "description", "license", "allowed-tools", "metadata", "compatibility"]

/-- `_validate_metadata_fields`: the set of unexpected keys. -/
def validateMetadataFields (md : Metadata) : List String :=
  let extra := ((md.map Prod.fst).filter (fun k => !allowedFields.contains k)).dedup
  if extra = [] then []
  else
    ["Unexpected fields in frontmatter: " ++
      String.intercalate ", " (sortStrings extra) ++
      ". Only ['allowed-tools', 'compatibility', 'description', 'license', " ++
      "'metadata', 'name'] are allowed."]

/-- `validate_metadata`: collect the errors of all checks in order, never
short-circuiting. -/
def validateMetadata (md : Metadata) (skillDir : Option String) : List String :=
  validateMetadataFields md ++
  (match md.lookup "name" with
   | Option.none => ["Missing required field in frontmatter: name"]
   | some v => validateName v skillDir) ++
  (match md.lookup "description" with
   | Option.none => ["Missing required field in frontmatter: description"]
   | some v => validateDescription v) ++
  (match md.lookup "compatibility" with
   | Option.none => []
   | some v => validateCompatibility v)

end AEP

namespace AEP

/-! ## Configuration-phase state machine
(src/aep/core/config/handlers/tools.py `ToolsHandler`,
src/aep/core/config/handlers/mcp.py `MCPHandler`)

The on-disk store is modelled by the two name sets the claims are about:
the files `C/tools/<name>.py` (plain tools and MCP stubs share this path
space) and the record directories `C/_mcp/<name>/` holding a
`config.json`.  Handler steps that can fail return the state reached at
the raise together with the raised error; manifest/venv/install side
steps touch neither set and are omitted from the state. -/

/-- Errors raised by configuration-phase handlers. -/
inductive ConfigErr where
  | fileNotFoundError (msg : String)
  | valueError (msg : String)
  | runtimeError (msg : String)
  deriving DecidableEq, Repr

/-- The modelled on-disk configuration store. -/
structure ConfigState where
  /-- Names `n` with a file `C/tools/<n>.py` (plain tools and stubs). -/
  toolFiles : Finset String
  /-- Names `n` with a record `C/_mcp/<n>/config.json`. -/
  mcpRecords : Finset String
  deriving DecidableEq

/-- The empty store created by `EnvManager._init_dirs`. -/
def initConfig : ConfigState := ⟨∅, ∅⟩

/-- `EnvConfig.tool_path(name)` relative to the config root. -/
def toolPath (name : String) : String := "tools/" ++ name ++ ".py"

/-- `ToolsHandler.add`: resolve the source (raise `FileNotFoundError` if
missing), default the name to the source stem, copy to
`tool_path(name)` and return that path.  There is no name validation of
any kind.  The subsequent manifest/venv/install steps do not touch the
modelled state. -/
def toolsHandlerAdd (s : ConfigState) (sourceExists : Bool) (stem : String)
    (nameArg : Option String) : ConfigState × Except ConfigErr String :=
  if !sourceExists then
    (s, Except.error (ConfigErr.fileNotFoundError "工具文件不存在"))
  else
    let name := nameArg.getD stem
    ({ s with toolFiles := insert name s.toolFiles }, Except.ok (toolPath name))

/-- `ToolsHandler.remove`: unlink `tool_path(name)` if present; the MCP
record directory is never touched. -/
def toolsHandlerRemove (s : ConfigState) (name : String) : ConfigState × Bool :=
  if name ∈ s.toolFiles then
    ({ s with toolFiles := s.toolFiles.erase name }, true)
  else (s, false)

/-- `MCPHandler.remove`: delete the stub and the record directory. -/
def mcpHandlerRemove (s : ConfigState) (name : String) : ConfigState × Bool :=
  let removed := name ∈ s.toolFiles || name ∈ s.mcpRecords
  (⟨s.toolFiles.erase name, s.mcpRecords.erase name⟩, removed)

/-- `MCPHandler.add`: validate the transport arguments, probe the stdio
prerequisite, persist the record (with a `tools: []` placeholder), then
discover; a discovery failure raises `RuntimeError` with the record kept
and no stub written; on success the stub is generated and returned. -/
def mcpHandlerAdd (s : ConfigState) (name : String)
    (argsValid prereqOk discoveryOk : Bool) :
    ConfigState × Except ConfigErr String :=
  if !argsValid then
    (s, Except.error (ConfigErr.valueError "STDIO 模式需要提供 command 参数"))
  else if !prereqOk then
    (s, Except.error (ConfigErr.runtimeError "未找到命令"))
  else
    let s1 : ConfigState := { s with mcpRecords := insert name s.mcpRecords }
    if !discoveryOk then
      (s1, Except.error (ConfigErr.runtimeError
        s!"无法连接到 MCP 服务器 '{name}': 请确认服务器配置正确且可以正常启动。"))
    else
      ({ s1 with toolFiles := insert name s1.toolFiles }, Except.ok (toolPath name))

/-- `MCPHandler.refresh`: `FileNotFoundError` when there is no record;
discovery failure raises before the stub is rewritten; on success the
stub is regenerated. -/
def mcpHandlerRefresh (s : ConfigState) (name : String) (discoveryOk : Bool) :
    ConfigState × Except ConfigErr String :=
  if name ∉ s.mcpRecords then
    (s, Except.error (ConfigErr.fileNotFoundError s!"MCP 服务器不存在: {name}"))
  else if !discoveryOk then
    (s, Except.error (ConfigErr.runtimeError
      s!"无法连接到 MCP 服务器 '{name}': 请确认服务器配置正确且可以正常启动。"))
  else
    ({ s with toolFiles := insert name s.toolFiles }, Except.ok (toolPath name))

/-- One configuration-phase operation with its external outcomes. -/
inductive ConfigOp where
  | toolsAdd (sourceExists : Bool) (stem : String) (nameArg : Option String)
  | toolsRemove (name : String)
  | mcpAdd (name : String) (argsValid prereqOk discoveryOk : Bool)
  | mcpRefresh (name : String) (discoveryOk : Bool)
  | mcpRemove (name : String)
  deriving DecidableEq

/-- The state reached after one operation (whether or not it raised). -/
def configStep (s : ConfigState) : ConfigOp → ConfigState
  | ConfigOp.toolsAdd se stem nameArg => (toolsHandlerAdd s se stem nameArg).1
  | ConfigOp.toolsRemove name => (toolsHandlerRemove s name).1
  | ConfigOp.mcpAdd name av pk disc => (mcpHandlerAdd s name av pk disc).1
  | ConfigOp.mcpRefresh name disc => (mcpHandlerRefresh s name disc).1
  | ConfigOp.mcpRemove name => (mcpHandlerRemove s name).1

/-- Running a sequence of configuration-phase operations. -/
def configRun (s : ConfigState) (ops : List ConfigOp) : ConfigState :=
  ops.foldl configStep s

/-- The stub invariant of the spec: every persisted MCP record has its
generated stub file. -/
def stubInvariant (s : ConfigState) : Prop := s.mcpRecords ⊆ s.toolFiles

instance (s : ConfigState) : Decidable (stubInvariant s) := by
  unfold stubInvariant; infer_instance

/-- An operation that keeps every record covered by a stub: an `mcp.add`
whose discovery runs must succeed, and `tools.remove` must not be applied
to a name holding an MCP record. -/
def safeOp (s : ConfigState) : ConfigOp → Prop
  | ConfigOp.toolsAdd _ _ _ => True
  | ConfigOp.toolsRemove name => name ∉ s.mcpRecords
  | ConfigOp.mcpAdd _ av pk disc => av = true → pk = true → disc = true
  | ConfigOp.mcpRefresh _ _ => True
  | ConfigOp.mcpRemove _ => True

/-- A trace whose every operation is safe in the state it runs in. -/
def safeTrace : ConfigState → List ConfigOp → Prop
  | _, [] => True
  | s, op :: rest => safeOp s op ∧ safeTrace (configStep s op) rest

end AEP

namespace AEP

/-! ## Skills handler (src/aep/core/config/handlers/skills.py,
`SkillsHandler.add`)

The store's `C/skills/` directory is modelled as an association list from
skill directory name to the content the validator inspects.  The
frontmatter parser (`skills_util/parser.py`) enters as data on the
source: whether `parse_frontmatter` succeeds and what it returns. -/

/-- What `validate` sees inside one skill directory. -/
structure SkillContent where
  hasSkillMd : Bool
  parseOk : Bool
  parseErrMsg : String
  metadata : Metadata
  deriving DecidableEq, Repr

/-- `skills_util.validator.validate` on an existing skill directory named
`dirName` with content `c` (the handler always calls it right after
copying, so existence and directoryhood hold). -/
def validateSkillDir (dirName : String) (c : SkillContent) : List String :=
  if !c.hasSkillMd then ["Missing required file: SKILL.md"]
  else if !c.parseOk then [c.parseErrMsg]
  else validateMetadata c.metadata (some dirName)

/-- The modelled `C/skills/` directory. -/
abbrev SkillsState := List (String × SkillContent)

/-- `shutil.rmtree` of one skill directory. -/
def skillsStateRemove (st : SkillsState) (name : String) : SkillsState :=
  st.filter (fun p => p.1 != name)

/-- Replace-on-copy: `rmtree` any existing directory, then copy. -/
def skillsStateSet (st : SkillsState) (name : String) (c : SkillContent) :
    SkillsState :=
  skillsStateRemove st name ++ [(name, c)]

/-- A skill source passed to `add`. -/
inductive SkillSource where
  | missing
  | file (isMd : Bool) (parseOk : Bool) (parseErrMsg : String) (metadata : Metadata)
  | dir (basename : String) (content : SkillContent)
  deriving DecidableEq

/-- The message of the `ValueError` raised on validation failure:
`技能 `{name}` 不符合 Agent Skills 规范:` followed by one `- <error>`
line per validation error. -/
def validationFailMsg (name : String) (errors : List String) : String :=
  "技能 `" ++ name ++ "` 不符合 Agent Skills 规范:\n" ++
    String.intercalate "\n" (errors.map (fun e => "- " ++ e))

/-- Copy the source into `C/skills/<name>/`, validate, and roll the copy
back on validation failure. -/
def skillsCopyAndValidate (st : SkillsState) (name : String) (c : SkillContent) :
    SkillsState × Except ConfigErr String :=
  let st1 := skillsStateSet st name c
  let errors := validateSkillDir name c
  if errors = [] then (st1, Except.ok ("skills/" ++ name))
  else
    (skillsStateRemove st1 name,
     Except.error (ConfigErr.valueError (validationFailMsg name errors)))

/-- `SkillsHandler.add` up to and including validation rollback.  The
post-validation dependency steps (manifest merge, venv creation, install)
never touch the set of skill directories and are outside the modelled
state. -/
def skillsHandlerAdd (st : SkillsState) (src : SkillSource)
    (nameArg : Option String) : SkillsState × Except ConfigErr String :=
  match src with
  | SkillSource.missing =>
    (st, Except.error (ConfigErr.fileNotFoundError "技能源不存在"))
  | SkillSource.file isMd parseOk parseErrMsg md =>
    if !isMd then
      (st, Except.error (ConfigErr.valueError "单文件技能仅支持 .md（SKILL.md）输入"))
    else if !parseOk then
      (st, Except.error (ConfigErr.valueError parseErrMsg))
    else
      match md.lookup "name" with
      | some (FrontValue.str s) =>
        if pyStrip s = "" then
          (st, Except.error (ConfigErr.valueError "单文件 SKILL.md 缺少有效的 name 字段"))
        else
          let parsedName := pyStrip s
          match nameArg with
          | some nm =>
            if nm ≠ parsedName then
              (st, Except.error (ConfigErr.valueError
                s!"单文件技能 name 参数应与 SKILL.md 的 name 一致: {nm} != {parsedName}"))
            else skillsCopyAndValidate st parsedName ⟨true, true, parseErrMsg, md⟩
          | Option.none =>
            skillsCopyAndValidate st parsedName ⟨true, true, parseErrMsg, md⟩
      | _ =>
        (st, Except.error (ConfigErr.valueError "单文件 SKILL.md 缺少有效的 name 字段"))
  | SkillSource.dir basename content =>
    let name := nameArg.getD basename
    skillsCopyAndValidate st name content

end AEP

namespace AEP

/-! ## Workspace binder (spec §4.5)

Modelled from the spec: the binder (`AEP.attach` / `detach` with
`WorkspaceConflict`) is not present under `src/` — only its tests and the
package doc reference it — so `attach` is modelled from §4.5 of the
specification: for each of `tools`, `skills`, `library` in order, a
pre-existing symbolic link is removed and re-created, a pre-existing
non-link child aborts with `WorkspaceConflict{path}`, an absent child is
created. -/

/-- A child of the protocol directory. -/
inductive FsEntry where
  | symlink (target : String)
  | file
  | dir
  deriving DecidableEq, Repr

/-- The protocol directory `<workspace>/.agent/` as a partial map from
child name to entry. -/
abbrev ProtoDir := String → Option FsEntry

/-- Update one child. -/
def protoSet (p : ProtoDir) (k : String) (v : FsEntry) : ProtoDir :=
  fun x => if x = k then some v else p x

/-- The three links the binder manages, in creation order. -/
def linkNames : List String := ["tools", "skills", "library"]

/-- Modelled from the spec: process one link target. -/
def attachStep (cfg : String → String) (p : ProtoDir) (name : String) :
    Except (String × ProtoDir) ProtoDir :=
  match p name with
  | Option.none => Except.ok (protoSet p name (FsEntry.symlink (cfg name)))
  | some (FsEntry.symlink _) =>
    Except.ok (protoSet p name (FsEntry.symlink (cfg name)))
  | some _ => Except.error (name, p)

/-- Modelled from the spec: `attach` creates the three links in order;
the error case is `WorkspaceConflict` carrying the conflicting child name
and the state of the protocol directory at the abort. -/
def attach (cfg : String → String) (p : ProtoDir) :
    Except (String × ProtoDir) ProtoDir :=
  linkNames.foldlM (attachStep cfg) p

/-- Does this pre-existing child make `attach` abort? -/
def conflicts : Option FsEntry → Bool
  | some FsEntry.file => true
  | some FsEntry.dir => true
  | _ => false

end AEP

namespace AEP

/-! ## Theorems -/

/-! ### C10 — `export` left-to-right application and non-atomic failure -/

theorem exportLoop_all_assigned (args : List String) :
    ∀ env, (∀ a ∈ args, pyInChar '=' a = true) →
    exportLoop env args = (ExecResult.empty, applyAssigns env args) := by
  induction args with
  | nil => intro env _; rfl
  | cons a rest ih =>
    intro env h
    have ha : pyInChar '=' a = true := h a (List.mem_cons_self a rest)
    simp only [exportLoop, ha, if_true, applyAssigns, List.foldl_cons]
    exact ih _ (fun x hx => h x (List.mem_cons_of_mem a hx))

theorem exportLoop_stops_at_bad (pre : List String) :
    ∀ env (arg : String) (post : List String),
    (∀ a ∈ pre, pyInChar '=' a = true) → pyInChar '=' arg = false →
    exportLoop env (pre ++ arg :: post) =
      (⟨"", s!"无效格式: {arg}，应为 KEY=VALUE", 1⟩, applyAssigns env pre) := by
  induction pre with
  | nil =>
    intro env arg post _ harg
    simp only [List.nil_append, exportLoop, harg, Bool.false_eq_true, if_false]
    rfl
  | cons a rest ih =>
    intro env arg post h harg
    have ha : pyInChar '=' a = true := h a (List.mem_cons_self a rest)
    simp only [List.cons_append, exportLoop, ha, if_true, applyAssigns,
      List.foldl_cons]
    exact ih _ arg post (fun x hx => h x (List.mem_cons_of_mem a hx)) harg

theorem handleExport_ne_nil (env : List (String × String)) (args : List String)
    (h : args ≠ []) : handleExport env args = exportLoop env args := by
  cases args with
  | nil => exact absurd rfl h
  | cons a rest => rfl

/-- C10: `export` applies `K=V` arguments strictly left to right; the
first argument without `=` ends the command with return code 1 and the
`无效格式` message, while every assignment already applied stays in the
session environment (the command is not atomic on error); when every
argument contains `=`, all assignments are applied and the result is the
empty `ExecResult`. -/
theorem export_left_to_right_not_atomic :
    (∀ (env : List (String × String)) (pre : List String) (arg : String)
        (post : List String),
      (∀ a ∈ pre, pyInChar '=' a = true) → pyInChar '=' arg = false →
      handleExport env (pre ++ arg :: post) =
        (⟨"", s!"无效格式: {arg}，应为 KEY=VALUE", 1⟩, applyAssigns env pre)) ∧
    (∀ (env : List (String × String)) (args : List String), args ≠ [] →
      (∀ a ∈ args, pyInChar '=' a = true) →
      handleExport env args = (ExecResult.empty, applyAssigns env args)) := by
  constructor
  · intro env pre arg post h harg
    rw [handleExport_ne_nil env _ (by simp)]
    exact exportLoop_stops_at_bad pre env arg post h harg
  · intro env args hne h
    rw [handleExport_ne_nil env args hne]
    exact exportLoop_all_assigned args env h

/-- Witness for C10 at a concrete session environment and argument list. -/
theorem export_left_to_right_not_atomic_witness :
    handleExport [("A", "1")] ["B=2", "oops", "C=3"] =
      (⟨"", s!"无效格式: oops，应为 KEY=VALUE", 1⟩,
       applyAssigns [("A", "1")] ["B=2"]) :=
  export_left_to_right_not_atomic.1 [("A", "1")] ["B=2"] "oops" ["C=3"]
    (by decide) (by decide)

/-! ### C2 — REPL last-expression echo -/

/-- C2: on a snippet whose final statement is an expression, the wrapper
executes the preceding statements as a block, evaluates the final
expression, and prints `str` of its value exactly when the value is not
`None`; when the final statement is not an expression the whole snippet
runs as one block with no extra echo. -/
theorem repl_echo_law :
    (∀ (env env1 : PyEnv) (stmts : List PyStmt) (out : List String)
        (e : PyExpr) (v : PyVal),
      execBlock env stmts = some (env1, out) → evalExpr env1 e = some v →
      replExec env (stmts ++ [PyStmt.exprS e]) =
        some (env1, out ++ (if v = PyVal.none then [] else [pyValStr v]))) ∧
    (∀ (env : PyEnv) (stmts : List PyStmt) (lastS : PyStmt),
      stmts.getLast? = some lastS → isExprStmt lastS = false →
      replExec env stmts = execBlock env stmts) := by
  constructor
  · intro env env1 stmts out e v hblock heval
    simp only [replExec, List.getLast?_concat, List.dropLast_concat, hblock,
      heval, Option.bind_eq_bind, Option.some_bind]
  · intro env stmts lastS hlast hnotExpr
    simp only [replExec, hlast]
    cases lastS with
    | assign x e => rfl
    | printS e => rfl
    | exprS e => simp [isExprStmt] at hnotExpr

/-- Witness for C2: `d = 3; d + 4` echoes `7`, and `d = 3` alone echoes
nothing. -/
theorem repl_echo_law_witness :
    replExec [] ([PyStmt.assign "d" (PyExpr.lit (PyVal.int 3))] ++
        [PyStmt.exprS (PyExpr.add (PyExpr.var "d") (PyExpr.lit (PyVal.int 4)))]) =
      some ([("d", PyVal.int 3)],
        [] ++ (if PyVal.int 7 = PyVal.none then [] else [pyValStr (PyVal.int 7)])) ∧
    replExec [] [PyStmt.assign "d" (PyExpr.lit (PyVal.int 3))] =
      execBlock [] [PyStmt.assign "d" (PyExpr.lit (PyVal.int 3))] :=
  ⟨repl_echo_law.1 [] [("d", PyVal.int 3)]
      [PyStmt.assign "d" (PyExpr.lit (PyVal.int 3))] []
      (PyExpr.add (PyExpr.var "d") (PyExpr.lit (PyVal.int 4))) (PyVal.int 7)
      (by decide) (by decide),
   repl_echo_law.2 [] [PyStmt.assign "d" (PyExpr.lit (PyVal.int 3))]
      (PyStmt.assign "d" (PyExpr.lit (PyVal.int 3))) (by decide) (by decide)⟩

end AEP

namespace AEP

/-! ### C4 — `tools.add` performs no name validation -/

/-- Counterexample to C4: `tools.add` accepts a tool name starting with an
underscore — nothing is rejected, the file is installed at
`C/tools/_hidden.py` and that path is returned. -/
theorem tools_add_accepts_underscore_name :
    pyStartsWith "_hidden" "_" = true ∧
    toolsHandlerAdd initConfig true "calc" (some "_hidden") =
      (⟨{"_hidden"}, ∅⟩, Except.ok "tools/_hidden.py") := by
  constructor
  · decide
  · rfl

/-- C4 (amended): `tools.add` validates nothing about the name: for every
store state, source stem and explicit or defaulted name — underscore
names included — it installs the file at `C/tools/<name>.py`, returns
that path, and leaves the MCP records untouched. -/
theorem tools_add_installs_any_name (s : ConfigState) (stem : String)
    (nameArg : Option String) :
    (toolsHandlerAdd s true stem nameArg).2 =
        Except.ok (toolPath (nameArg.getD stem)) ∧
    (nameArg.getD stem) ∈ (toolsHandlerAdd s true stem nameArg).1.toolFiles ∧
    (toolsHandlerAdd s true stem nameArg).1.mcpRecords = s.mcpRecords := by
  refine ⟨rfl, ?_, rfl⟩
  simp [toolsHandlerAdd]

/-! ### C5 — `tools.remove` leaves the MCP record behind -/

/-- Counterexample to C5: removing an MCP-backed tool through the tools
handler unlinks only `C/tools/figma.py`; the record `_mcp/figma/` is left
orphaned. -/
theorem tools_remove_orphans_mcp_record :
    toolsHandlerRemove ⟨{"figma"}, {"figma"}⟩ "figma" =
      (⟨∅, {"figma"}⟩, true) ∧
    "figma" ∈ (toolsHandlerRemove ⟨{"figma"}, {"figma"}⟩ "figma").1.mcpRecords ∧
    "figma" ∉ (toolsHandlerRemove ⟨{"figma"}, {"figma"}⟩ "figma").1.toolFiles := by
  refine ⟨?_, by decide, by decide⟩
  rfl

/-- C5 (amended): `tools.remove(name)` unlinks `C/tools/<name>.py` and
never touches the MCP records, so a matching record stays orphaned;
deleting both the stub and the record is done only by `mcp.remove`. -/
theorem tools_remove_file_only (s : ConfigState) (name : String) :
    (toolsHandlerRemove s name).1.toolFiles = s.toolFiles.erase name ∧
    (toolsHandlerRemove s name).1.mcpRecords = s.mcpRecords ∧
    (mcpHandlerRemove s name).1.toolFiles = s.toolFiles.erase name ∧
    (mcpHandlerRemove s name).1.mcpRecords = s.mcpRecords.erase name := by
  refine ⟨?_, ?_, rfl, rfl⟩ <;> unfold toolsHandlerRemove <;> split
  · rfl
  · exact (Finset.erase_eq_of_not_mem (by assumption)).symm
  · rfl
  · rfl

/-! ### C6 — the record-has-stub invariant -/

instance (s : ConfigState) (op : ConfigOp) : Decidable (safeOp s op) := by
  cases op <;> (unfold safeOp; infer_instance)

instance safeTraceDecidable :
    (s : ConfigState) → (ops : List ConfigOp) → Decidable (safeTrace s ops)
  | _, [] => Decidable.isTrue trivial
  | s, op :: rest => by
    have : Decidable (safeTrace (configStep s op) rest) :=
      safeTraceDecidable (configStep s op) rest
    unfold safeTrace
    infer_instance

/-- Counterexample to C6: `mcp.add` persists the record before discovery,
so the state reached when discovery fails has the record
`_mcp/srv/config.json` with no stub at `C/tools/srv.py` — exactly the
state the claim says still satisfies the invariant. -/
theorem failed_discovery_record_without_stub :
    ¬ stubInvariant (configRun initConfig [ConfigOp.mcpAdd "srv" true true false]) ∧
    "srv" ∈ (configRun initConfig
        [ConfigOp.mcpAdd "srv" true true false]).mcpRecords ∧
    "srv" ∉ (configRun initConfig
        [ConfigOp.mcpAdd "srv" true true false]).toolFiles := by
  refine ⟨?_, by decide, by decide⟩
  decide

theorem configStep_preserves_invariant (s : ConfigState) (op : ConfigOp)
    (hinv : stubInvariant s) (hsafe : safeOp s op) :
    stubInvariant (configStep s op) := by
  cases op with
  | toolsAdd se stem nameArg =>
    simp only [configStep, toolsHandlerAdd]
    split
    · exact hinv
    · exact hinv.trans (Finset.subset_insert _ _)
  | toolsRemove name =>
    simp only [configStep, toolsHandlerRemove]
    split
    · intro x hx
      simp only at hx
      exact Finset.mem_erase.mpr ⟨fun hxe => hsafe (hxe ▸ hx), hinv hx⟩
    · exact hinv
  | mcpAdd name av pk disc =>
    simp only [configStep, mcpHandlerAdd]
    split
    · exact hinv
    · split
      · exact hinv
      · rename_i hav hpk
        have hdisc : disc = true := by
          apply hsafe
          · revert hav; cases av <;> simp
          · revert hpk; cases pk <;> simp
        split
        · rename_i hnd
          rw [hdisc] at hnd
          simp at hnd
        · exact Finset.insert_subset_insert name hinv
  | mcpRefresh name disc =>
    simp only [configStep, mcpHandlerRefresh]
    split
    · exact hinv
    · split
      · exact hinv
      · exact hinv.trans (Finset.subset_insert _ _)
  | mcpRemove name =>
    simp only [configStep, mcpHandlerRemove]
    exact Finset.erase_subset_erase name hinv

theorem configRun_preserves_invariant (ops : List ConfigOp) :
    ∀ s, stubInvariant s → safeTrace s ops → stubInvariant (configRun s ops) := by
  induction ops with
  | nil => intro s h _; exact h
  | cons op rest ih =>
    intro s h hsafe
    exact ih (configStep s op)
      (configStep_preserves_invariant s op h hsafe.1) hsafe.2

/-- C6 (amended): starting from the empty store, the invariant "every MCP
record with a `config.json` has its stub at `C/tools/<name>.py`" holds in
every state reached by a trace of `tools.add`, `tools.remove` (restricted
to names without a record), `mcp.add` whose discovery succeeds,
`mcp.refresh` and `mcp.remove` — but not in the state reached when
`mcp.add`'s discovery fails after persisting the record (or after
`tools.remove` of a stub name), where the record is kept and the stub is
absent. -/
theorem config_ops_keep_stub_invariant (ops : List ConfigOp)
    (hsafe : safeTrace initConfig ops) :
    stubInvariant (configRun initConfig ops) :=
  configRun_preserves_invariant ops initConfig (by decide) hsafe

/-- Witness for C6 at a concrete safe trace. -/
theorem config_ops_keep_stub_invariant_witness :
    stubInvariant (configRun initConfig
      [ConfigOp.mcpAdd "srv" true true true,
       ConfigOp.toolsAdd true "calc" Option.none,
       ConfigOp.toolsRemove "calc",
       ConfigOp.mcpRefresh "srv" true,
       ConfigOp.mcpRemove "srv"]) :=
  config_ops_keep_stub_invariant
    [ConfigOp.mcpAdd "srv" true true true,
     ConfigOp.toolsAdd true "calc" Option.none,
     ConfigOp.toolsRemove "calc",
     ConfigOp.mcpRefresh "srv" true,
     ConfigOp.mcpRemove "srv"] (by decide)

end AEP

namespace AEP

/-! ### C7 — `skills.add` rolls back the copy on validation failure -/

theorem skillsStateRemove_lookup (st : SkillsState) (name : String) :
    (skillsStateRemove st name).lookup name = Option.none := by
  induction st with
  | nil => rfl
  | cons p rest ih =>
    by_cases h : p.1 = name
    · simp [skillsStateRemove, List.filter_cons, h] at ih ⊢
      exact ih
    · simp only [skillsStateRemove, List.filter_cons] at ih ⊢
      have hb : (p.1 != name) = true := by simp [h]
      rw [hb]
      simp only [if_true]
      rw [List.lookup_cons]
      have : (name == p.1) = false := by simp [Ne.symm h]
      rw [this]
      exact ih

theorem skillsStateRemove_set (st : SkillsState) (name : String)
    (c : SkillContent) :
    skillsStateRemove (skillsStateSet st name c) name = skillsStateRemove st name := by
  unfold skillsStateSet skillsStateRemove
  rw [List.filter_append]
  simp [List.filter_filter]

theorem skillsCopyAndValidate_fails (st : SkillsState) (name : String)
    (c : SkillContent) (hfail : validateSkillDir name c ≠ []) :
    skillsCopyAndValidate st name c =
      (skillsStateRemove st name,
       Except.error (ConfigErr.valueError
         (validationFailMsg name (validateSkillDir name c)))) := by
  unfold skillsCopyAndValidate
  rw [if_neg hfail, skillsStateRemove_set]

/-- C7: whenever the copy step of `skills.add` completes and validation of
the copied directory reports a non-empty error list, the just-copied
directory is removed again (no `C/skills/<name>/` entry remains — not
even a pre-existing one, since the copy replaced it) and the raised
error's message carries every validation error; this holds for directory
sources and for single-file `SKILL.md` sources alike. -/
theorem skills_add_rolls_back_on_invalid :
    (∀ (st : SkillsState) (basename : String) (c : SkillContent)
        (nameArg : Option String),
      validateSkillDir (nameArg.getD basename) c ≠ [] →
      skillsHandlerAdd st (SkillSource.dir basename c) nameArg =
        (skillsStateRemove st (nameArg.getD basename),
         Except.error (ConfigErr.valueError
           (validationFailMsg (nameArg.getD basename)
             (validateSkillDir (nameArg.getD basename) c)))) ∧
      (skillsHandlerAdd st (SkillSource.dir basename c) nameArg).1.lookup
          (nameArg.getD basename) = Option.none) ∧
    (∀ (st : SkillsState) (pe : String) (md : Metadata) (s : String),
      md.lookup "name" = some (FrontValue.str s) → pyStrip s ≠ "" →
      validateSkillDir (pyStrip s) ⟨true, true, pe, md⟩ ≠ [] →
      skillsHandlerAdd st (SkillSource.file true true pe md) Option.none =
        (skillsStateRemove st (pyStrip s),
         Except.error (ConfigErr.valueError
           (validationFailMsg (pyStrip s)
             (validateSkillDir (pyStrip s) ⟨true, true, pe, md⟩))))) := by
  constructor
  · intro st basename c nameArg hfail
    have hstep := skillsCopyAndValidate_fails st (nameArg.getD basename) c hfail
    constructor
    · simp only [skillsHandlerAdd]
      exact hstep
    · simp only [skillsHandlerAdd, hstep]
      exact skillsStateRemove_lookup st (nameArg.getD basename)
  · intro st pe md s hname hs hfail
    simp only [skillsHandlerAdd, Bool.not_true, hname]
    rw [if_neg hs]
    exact skillsCopyAndValidate_fails st (pyStrip s) ⟨true, true, pe, md⟩ hfail

/-- Witness for C7: adding a directory skill whose frontmatter name is
uppercase fails validation and leaves no `C/skills/Bad/` entry. -/
theorem skills_add_rolls_back_on_invalid_witness :
    skillsHandlerAdd [] (SkillSource.dir "Bad"
        ⟨true, true, "", [("name", FrontValue.str "Bad"),
          ("description", FrontValue.str "d")]⟩) Option.none =
      (skillsStateRemove [] "Bad",
       Except.error (ConfigErr.valueError
         (validationFailMsg "Bad"
           (validateSkillDir "Bad"
             ⟨true, true, "", [("name", FrontValue.str "Bad"),
               ("description", FrontValue.str "d")]⟩)))) ∧
    (skillsHandlerAdd [] (SkillSource.dir "Bad"
        ⟨true, true, "", [("name", FrontValue.str "Bad"),
          ("description", FrontValue.str "d")]⟩) Option.none).1.lookup "Bad" =
      Option.none :=
  (skills_add_rolls_back_on_invalid.1 [] "Bad"
    ⟨true, true, "", [("name", FrontValue.str "Bad"),
      ("description", FrontValue.str "d")]⟩ Option.none (by decide))

end AEP

namespace AEP

/-! ### C8 — attach conflict aborts, symlinks are re-created -/

theorem protoSet_self (p : ProtoDir) (k : String) (v : FsEntry) :
    protoSet p k v k = some v := by
  simp [protoSet]

theorem protoSet_ne (p : ProtoDir) (k v x) (h : x ≠ k) :
    protoSet p k v x = p x := by
  simp [protoSet, h]

theorem attachStep_of_no_conflict (cfg : String → String) (p : ProtoDir)
    (name : String) (h : conflicts (p name) = false) :
    attachStep cfg p name =
      Except.ok (protoSet p name (FsEntry.symlink (cfg name))) := by
  cases hp : p name with
  | none => simp [attachStep, hp]
  | some e =>
    cases e with
    | symlink t => simp [attachStep, hp]
    | file => rw [hp] at h; simp [conflicts] at h
    | dir => rw [hp] at h; simp [conflicts] at h

theorem attachStep_of_conflict (cfg : String → String) (p : ProtoDir)
    (name : String) (h : conflicts (p name) = true) :
    attachStep cfg p name = Except.error (name, p) := by
  cases hp : p name with
  | none => rw [hp] at h; simp [conflicts] at h
  | some e =>
    cases e with
    | symlink t => rw [hp] at h; simp [conflicts] at h
    | file => simp [attachStep, hp]
    | dir => simp [attachStep, hp]

theorem exceptBindOk {α β ε : Type} (x : α) (f : α → Except ε β) :
    (Except.ok x >>= f) = f x := rfl

theorem exceptBindError {α β ε : Type} (e : ε) (f : α → Except ε β) :
    ((Except.error e : Except ε α) >>= f) = Except.error e := rfl

/-- C8 (modelled from the spec): when every pre-existing child of the
protocol directory is a symbolic link (or absent), `attach` succeeds and
every managed child ends up as a fresh symlink into the config — links
are removed and re-created; when some managed child is a regular file or
directory, `attach` aborts with `WorkspaceConflict` at the first such
child, and that child is left exactly as it was. -/
theorem attach_relinks_or_aborts :
    (∀ (cfg : String → String) (p : ProtoDir),
      (∀ l ∈ linkNames, conflicts (p l) = false) →
      ∃ p', attach cfg p = Except.ok p' ∧
        ∀ l ∈ linkNames, p' l = some (FsEntry.symlink (cfg l))) ∧
    (∀ (cfg : String → String) (p : ProtoDir) (l : String),
      linkNames.find? (fun x => conflicts (p x)) = some l →
      ∃ st, attach cfg p = Except.error (l, st) ∧ st l = p l) := by
  constructor
  · intro cfg p h
    have h1 := h "tools" (by simp [linkNames])
    have h2 := h "skills" (by simp [linkNames])
    have h3 := h "library" (by simp [linkNames])
    have e1 := attachStep_of_no_conflict cfg p "tools" h1
    have e2 := attachStep_of_no_conflict cfg
      (protoSet p "tools" (FsEntry.symlink (cfg "tools"))) "skills" h2
    have e3 := attachStep_of_no_conflict cfg
      (protoSet (protoSet p "tools" (FsEntry.symlink (cfg "tools"))) "skills"
        (FsEntry.symlink (cfg "skills"))) "library" h3
    refine ⟨protoSet (protoSet (protoSet p "tools" (FsEntry.symlink (cfg "tools")))
        "skills" (FsEntry.symlink (cfg "skills"))) "library"
        (FsEntry.symlink (cfg "library")), ?_, ?_⟩
    · simp only [attach, linkNames, List.foldlM_cons, List.foldlM_nil, e1,
        exceptBindOk, e2, e3]
      rfl
    · intro l hl
      simp only [linkNames, List.mem_cons, List.not_mem_nil, or_false] at hl
      rcases hl with rfl | rfl | rfl <;> rfl
  · intro cfg p l hfind
    rw [show linkNames = "tools" :: "skills" :: ["library"] from rfl] at hfind
    by_cases c1 : conflicts (p "tools") = true
    · rw [@List.find?_cons_of_pos String (fun x => conflicts (p x)) "tools"
        ("skills" :: ["library"]) c1] at hfind
      cases Option.some_inj.mp hfind
      refine ⟨p, ?_, rfl⟩
      simp only [attach, linkNames, List.foldlM_cons,
        attachStep_of_conflict cfg p "tools" c1, exceptBindError]
    · have c1' : conflicts (p "tools") = false := by
        revert c1; cases conflicts (p "tools") <;> simp
      have e1 := attachStep_of_no_conflict cfg p "tools" c1'
      rw [@List.find?_cons_of_neg String (fun x => conflicts (p x)) "tools"
        ("skills" :: ["library"]) c1] at hfind
      by_cases c2 : conflicts (p "skills") = true
      · rw [@List.find?_cons_of_pos String (fun x => conflicts (p x)) "skills"
          ["library"] c2] at hfind
        cases Option.some_inj.mp hfind
        refine ⟨protoSet p "tools" (FsEntry.symlink (cfg "tools")), ?_, rfl⟩
        simp only [attach, linkNames, List.foldlM_cons, e1, exceptBindOk,
          attachStep_of_conflict cfg
            (protoSet p "tools" (FsEntry.symlink (cfg "tools"))) "skills" c2,
          exceptBindError]
      · have c2' : conflicts (p "skills") = false := by
          revert c2; cases conflicts (p "skills") <;> simp
        have e2 := attachStep_of_no_conflict cfg
          (protoSet p "tools" (FsEntry.symlink (cfg "tools"))) "skills" c2'
        rw [@List.find?_cons_of_neg String (fun x => conflicts (p x)) "skills"
          ["library"] c2] at hfind
        by_cases c3 : conflicts (p "library") = true
        · rw [@List.find?_cons_of_pos String (fun x => conflicts (p x)) "library"
            [] c3] at hfind
          cases Option.some_inj.mp hfind
          refine ⟨protoSet (protoSet p "tools" (FsEntry.symlink (cfg "tools")))
            "skills" (FsEntry.symlink (cfg "skills")), ?_, rfl⟩
          simp only [attach, linkNames, List.foldlM_cons, e1, e2, exceptBindOk,
            attachStep_of_conflict cfg
              (protoSet (protoSet p "tools" (FsEntry.symlink (cfg "tools")))
                "skills" (FsEntry.symlink (cfg "skills"))) "library" c3,
            exceptBindError]
        · exfalso
          rw [@List.find?_cons_of_neg String (fun x => conflicts (p x)) "library"
            [] c3] at hfind
          simp at hfind

/-- Witness for C8: a protocol directory holding a stale symlink at
`tools` and nothing else attaches successfully, and a directory holding a
regular file at `tools` aborts with that child untouched. -/
theorem attach_relinks_or_aborts_witness :
    (∃ p', attach (fun l => "/cfg/" ++ l)
        (fun x => if x = "tools" then some (FsEntry.symlink "/stale") else Option.none) =
          Except.ok p' ∧
        ∀ l ∈ linkNames, p' l = some (FsEntry.symlink ("/cfg/" ++ l))) ∧
    (∃ st, attach (fun l => "/cfg/" ++ l)
        (fun x => if x = "tools" then some FsEntry.file else Option.none) =
          Except.error ("tools", st) ∧
        st "tools" = (fun x : String =>
          if x = "tools" then some FsEntry.file else Option.none) "tools") :=
  ⟨attach_relinks_or_aborts.1 (fun l => "/cfg/" ++ l)
      (fun x => if x = "tools" then some (FsEntry.symlink "/stale") else Option.none)
      (by decide),
   attach_relinks_or_aborts.2 (fun l => "/cfg/" ++ l)
      (fun x => if x = "tools" then some FsEntry.file else Option.none)
      "tools" (by decide)⟩

end AEP

namespace AEP

/-! ### C9 — manifest union-merge: sortedness, order independence,
idempotence -/

theorem mem_sortStrings {x : String} {l : List String} :
    x ∈ sortStrings l ↔ x ∈ l :=
  (List.perm_insertionSort strLe l).mem_iff

theorem sortStrings_eq_of_mem_iff {l l' : List String} (hn : l.Nodup)
    (hn' : l'.Nodup) (h : ∀ x, x ∈ l ↔ x ∈ l') :
    sortStrings l = sortStrings l' := by
  refine List.eq_of_perm_of_sorted ?_ (List.sorted_insertionSort strLe l)
    (List.sorted_insertionSort strLe l')
  exact ((List.perm_insertionSort strLe l).trans
    (List.perm_of_nodup_nodup_toFinset_eq hn hn'
      (Finset.ext fun a => by simp [List.mem_toFinset, h a]))).trans
    (List.perm_insertionSort strLe l').symm

theorem manifestEntries_append (a b : List String) :
    manifestEntries (a ++ b) = manifestEntries a ++ manifestEntries b := by
  simp [manifestEntries, List.filter_append]

theorem manifestEntries_of_clean (L : List String)
    (h : ∀ e ∈ L, cleanEntry e) : manifestEntries L = L := by
  unfold manifestEntries
  have hf : L.filter (fun l => !(pyStrip l == "") && !(pyStartsWith l "#")) = L := by
    refine List.filter_eq_self.mpr (fun e he => ?_)
    obtain ⟨hstrip, hne, hhash, _⟩ := h e he
    have h1 : (pyStrip e == "") = false := by
      rw [hstrip]
      exact beq_eq_false_iff_ne.mpr hne
    have h2 : pyStartsWith e "#" = false := by
      cases hps : pyStartsWith e "#"
      · rfl
      · exact absurd hps hhash
    simp [h1, h2]
  rw [hf]
  have : ∀ e ∈ L, pyStrip e = e := fun e he => (h e he).1
  calc L.map pyStrip = L.map id := List.map_congr_left this
    _ = L := List.map_id L

/-- C9 (amended): for a non-empty specifier list, `save_requirements`
writes exactly the distinct entries of the existing manifest united with
the given specifiers, sorted, one per line with a trailing newline; the
result depends only on the *set* of specifiers (order independence), and
the operation is idempotent provided every existing entry and every
specifier survives the write/read round trip — is stripped, non-empty,
newline-free and not starting with `#`.  (Without that proviso
idempotence fails, see the counterexample.) -/
theorem save_requirements_sorted_union (c d d' : List String)
    (hd : d ≠ []) (hd' : d' ≠ []) (hperm : d.Perm d')
    (hclean : ∀ e ∈ manifestEntries c ++ d, cleanEntry e) :
    List.Sorted strLe (saveRequirements c d).dropLast ∧
    (saveRequirements c d).dropLast.Nodup ∧
    (∀ x, x ∈ (saveRequirements c d).dropLast ↔
      x ∈ manifestEntries c ∨ x ∈ d) ∧
    (saveRequirements c d).getLast? = some "" ∧
    saveRequirements c d' = saveRequirements c d ∧
    saveRequirements (saveRequirements c d) d = saveRequirements c d := by
  have hsave : saveRequirements c d =
      sortStrings ((manifestEntries c ++ d).dedup) ++ [""] := by
    unfold saveRequirements; rw [if_neg hd]
  have hdrop : (saveRequirements c d).dropLast =
      sortStrings ((manifestEntries c ++ d).dedup) := by
    rw [hsave, List.dropLast_concat]
  refine ⟨?_, ?_, ?_, ?_, ?_, ?_⟩
  · rw [hdrop]; exact List.sorted_insertionSort strLe _
  · rw [hdrop]
    exact ((List.perm_insertionSort strLe _).nodup_iff).mpr (List.nodup_dedup _)
  · intro x
    rw [hdrop, mem_sortStrings, List.mem_dedup, List.mem_append]
  · rw [hsave, List.getLast?_concat]
  · have hsave' : saveRequirements c d' =
        sortStrings ((manifestEntries c ++ d').dedup) ++ [""] := by
      unfold saveRequirements; rw [if_neg hd']
    rw [hsave, hsave']
    congr 1
    refine sortStrings_eq_of_mem_iff (List.nodup_dedup _) (List.nodup_dedup _)
      (fun x => ?_)
    simp only [List.mem_dedup, List.mem_append, hperm.mem_iff]
  · have hcleanS : ∀ e ∈ sortStrings ((manifestEntries c ++ d).dedup),
        cleanEntry e := by
      intro e he
      exact hclean e (List.mem_dedup.mp (mem_sortStrings.mp he))
    rw [hsave]
    have hme : manifestEntries
        (sortStrings ((manifestEntries c ++ d).dedup) ++ [""]) =
        sortStrings ((manifestEntries c ++ d).dedup) := by
      rw [manifestEntries_append, manifestEntries_of_clean _ hcleanS,
        show manifestEntries [""] = [] from by decide, List.append_nil]
    unfold saveRequirements
    rw [if_neg hd, hme]
    congr 1
    refine sortStrings_eq_of_mem_iff (List.nodup_dedup _) (List.nodup_dedup _)
      (fun x => ?_)
    simp only [List.mem_dedup, List.mem_append, mem_sortStrings]
    tauto

/-- Witness for C9 at a concrete manifest and specifier lists. -/
theorem save_requirements_sorted_union_witness :
    List.Sorted strLe (saveRequirements ["b", "", "a"] ["c", "a"]).dropLast ∧
    (saveRequirements ["b", "", "a"] ["c", "a"]).dropLast.Nodup ∧
    (∀ x, x ∈ (saveRequirements ["b", "", "a"] ["c", "a"]).dropLast ↔
      x ∈ manifestEntries ["b", "", "a"] ∨ x ∈ ["c", "a"]) ∧
    (saveRequirements ["b", "", "a"] ["c", "a"]).getLast? = some "" ∧
    saveRequirements ["b", "", "a"] ["a", "c"] =
      saveRequirements ["b", "", "a"] ["c", "a"] ∧
    saveRequirements (saveRequirements ["b", "", "a"] ["c", "a"]) ["c", "a"] =
      saveRequirements ["b", "", "a"] ["c", "a"] :=
  save_requirements_sorted_union ["b", "", "a"] ["c", "a"] ["a", "c"]
    (by decide) (by decide) (by decide) (by decide)

/-- Counterexample to C9 as stated: with the specifier `" a"` (not equal
to its own strip) the operation is not idempotent — the second save reads
back the entry as `"a"` and the written set grows. -/
theorem save_requirements_not_idempotent :
    saveRequirements (saveRequirements [""] [" a"]) [" a"] ≠
      saveRequirements [""] [" a"] := by
  decide

end AEP

namespace AEP

/-! ### C3 — which names the validator rejects -/

theorem validateNameChecks_ne_nil (n : String) (dirName : String)
    (hviol : 64 < pyLen n ∨ n ≠ pyLowerStr n ∨ pyStartsWith n "-" = true ∨
      pyEndsWith n "-" = true ∨ pyInStr "--" n = true ∨
      (∃ c ∈ n.data, ¬(pyIsAlnumChar c = true ∨ c = '-')) ∨
      pyNFKC dirName ≠ n) :
    validateNameChecks n (some dirName) ≠ [] := by
  intro hempty
  unfold validateNameChecks at hempty
  simp only [List.append_eq_nil] at hempty
  obtain ⟨⟨⟨⟨⟨h1, h2⟩, h3⟩, h4⟩, h5⟩, h6⟩ := hempty
  rcases hviol with hv | hv | hv | hv | hv | hv | hv
  · rw [if_pos hv] at h1; cases h1
  · rw [if_pos hv] at h2; cases h2
  · rw [if_pos (show (pyStartsWith n "-" || pyEndsWith n "-") = true from by
      rw [hv]; rfl)] at h3
    cases h3
  · rw [if_pos (show (pyStartsWith n "-" || pyEndsWith n "-") = true from by
      rw [hv]; simp)] at h3
    cases h3
  · rw [if_pos hv] at h4; cases h4
  · have hall : n.data.all (fun c => pyIsAlnumChar c || c == '-') = false := by
      obtain ⟨c, hc, hcn⟩ := hv
      cases hallc : n.data.all (fun c => pyIsAlnumChar c || c == '-') with
      | false => rfl
      | true =>
        exfalso
        have := List.all_eq_true.mp hallc c hc
        simp only [Bool.or_eq_true, beq_iff_eq] at this
        exact hcn this
    rw [if_pos (show (!(n.data.all (fun c => pyIsAlnumChar c || c == '-'))) = true
      from by rw [hall]; rfl)] at h5
    cases h5
  · rw [if_pos hv] at h6; cases h6

/-- C3 (amended): whenever the frontmatter has a string `name` whose
stripped, NFKC-normalized form exceeds 64 characters, differs from its
Python lowercase, starts or ends with a hyphen, contains `--`, contains a
character that is neither Python-alphanumeric (Unicode `str.isalnum`) nor
a hyphen, or differs from the normalized directory basename, the
validator reports at least one error.  The character class the code
enforces is Unicode alphanumerics, not ASCII `[a-z0-9]` — see the
counterexample. -/
theorem validate_metadata_flags_bad_names (md : Metadata) (dirName s n : String)
    (hlook : md.lookup "name" = some (FrontValue.str s))
    (hn : n = pyNFKC (pyStrip s))
    (hviol : 64 < pyLen n ∨ n ≠ pyLowerStr n ∨ pyStartsWith n "-" = true ∨
      pyEndsWith n "-" = true ∨ pyInStr "--" n = true ∨
      (∃ c ∈ n.data, ¬(pyIsAlnumChar c = true ∨ c = '-')) ∨
      pyNFKC dirName ≠ n) :
    validateMetadata md (some dirName) ≠ [] := by
  intro hempty
  unfold validateMetadata at hempty
  rw [hlook] at hempty
  simp only [List.append_eq_nil] at hempty
  have hname : validateName (FrontValue.str s) (some dirName) = [] :=
    hempty.1.1.2
  simp only [validateName] at hname
  by_cases h0 : s = "" ∨ pyStrip s = ""
  · rw [if_pos h0] at hname; cases hname
  · rw [if_neg h0] at hname
    exact validateNameChecks_ne_nil (pyNFKC (pyStrip s)) dirName
      (hn ▸ hviol) hname

/-- Witness for C3: an uppercase name is reported. -/
theorem validate_metadata_flags_bad_names_witness :
    validateMetadata [("name", FrontValue.str "BAD"),
      ("description", FrontValue.str "d")] (some "bad") ≠ [] :=
  validate_metadata_flags_bad_names
    [("name", FrontValue.str "BAD"), ("description", FrontValue.str "d")]
    "bad" "BAD" "BAD" (by decide) (by decide) (by decide)

/-- Counterexample to C3 as stated: the name `café` contains `é`, which is
not an ASCII lowercase letter, digit or hyphen, yet the validator returns
an empty error list — the code's character-class check uses Python's
Unicode `str.isalnum`, which accepts `é`. -/
theorem validator_accepts_non_ascii_name :
    validateMetadata [("name", FrontValue.str "café"),
      ("description", FrontValue.str "desc")] (some "café") = [] ∧
    ¬ (∀ c ∈ "café".data,
        ('a' ≤ c ∧ c ≤ 'z') ∨ ('0' ≤ c ∧ c ≤ '9') ∨ c = '-') := by
  constructor
  · decide
  · decide

end AEP

namespace AEP

/-! ### C1 — what `session.exec` normalizes and what escapes it -/

theorem toolExecutorRun_isOk (w : World) (code : String)
    (hv : w.toolsVenvExists = true) (hp : w.toolsPythonFound = true) :
    ∃ r, toolExecutorRun w code = Except.ok r := by
  have he : toolEnsureVenv w = Except.ok () := by
    unfold toolEnsureVenv
    rw [hv, hp]
    rfl
  simp only [toolExecutorRun]
  rw [he, exceptBindOk]
  cases w.toolChild <;> exact ⟨_, rfl⟩

theorem handleToolsRun_isOk (w : World) (codeArg : String)
    (hv : w.toolsVenvExists = true) (hp : w.toolsPythonFound = true) :
    ∃ r, handleToolsRun w codeArg = Except.ok r := by
  simp only [handleToolsRun]
  split
  · exact ⟨_, rfl⟩
  · split
    · exact ⟨_, rfl⟩
    · exact toolExecutorRun_isOk w _ hv hp

theorem handleTools_isOk (w : World) (args : List String)
    (hv : w.toolsVenvExists = true) (hp : w.toolsPythonFound = true) :
    ∃ r, handleTools w args = Except.ok r := by
  cases args with
  | nil => exact ⟨_, rfl⟩
  | cons sub rest =>
    simp only [handleTools]
    repeat' first
    | exact toolExecutorRun_isOk w _ hv hp
    | exact ⟨_, rfl⟩
    | split

/-- C1 (amended): as long as the shared tools environment
(`tools/.venv` and its Python) is present, `session.exec` returns an
`ExecResult` for *every* command string and world: bad run syntax, shlex
parse errors, child failures and timeouts are all reported through the
returned stderr and return code.  The one exception is a missing tools
environment: `ToolExecutor.run` calls `ensure_venv` outside its `try`
block, so that `RuntimeError` escapes `session.exec` (see the
counterexample). -/
theorem exec_normalizes_runtime_failures (w : World) (st : SessionState)
    (cmd : String) (hv : w.toolsVenvExists = true)
    (hp : w.toolsPythonFound = true) :
    ∃ r, sessionExec w st cmd = Except.ok r := by
  simp only [sessionExec]
  split
  · exact ⟨_, rfl⟩
  · split
    · obtain ⟨r, hr⟩ := handleToolsRun_isOk w (pySlice (pyStrip cmd) 10
        (pyLen (pyStrip cmd))) hv hp
      rw [hr]
      exact ⟨(r, st), rfl⟩
    · split
      · exact ⟨_, rfl⟩
      · exact ⟨_, rfl⟩
      · split
        · obtain ⟨r, hr⟩ := handleTools_isOk w _ hv hp
          rw [hr]
          exact ⟨(r, st), rfl⟩
        · split
          · exact ⟨_, rfl⟩
          · split
            · exact ⟨_, rfl⟩
            · split
              · exact ⟨_, rfl⟩
              · exact ⟨_, rfl⟩

/-- A minimal world: everything absent, every child times out; `venv`
controls whether `tools/.venv` (and its Python) exists. -/
def mkWorld (venv : Bool) : World where
  shlexSplit := fun _ => Except.ok []
  resolve := fun p => p
  pathExists := fun _ => false
  isDir := fun _ => false
  toolsIndex := Option.none
  toolDoc := fun _ => Option.none
  toolPy := fun _ => Option.none
  toolsVenvExists := venv
  toolsPythonFound := venv
  toolChild := ChildOutcome.timeout
  skillsIndex := Option.none
  skillDirIsDir := fun _ => false
  skillMd := fun _ => Option.none
  readmeMd := fun _ => Option.none
  skillScriptExists := fun _ => false
  skillVenvExists := fun _ => false
  skillPythonFound := fun _ => false
  skillChild := ChildOutcome.timeout
  shellChild := ChildOutcome.timeout

/-- Witness for C1 with the tools environment present. -/
theorem exec_normalizes_runtime_failures_witness :
    ∃ r, sessionExec (mkWorld true) ⟨"/ws", "/ws", []⟩ "tools run \"1 + 2\"" =
      Except.ok r :=
  exec_normalizes_runtime_failures (mkWorld true) ⟨"/ws", "/ws", []⟩
    "tools run \"1 + 2\"" rfl rfl

/-- Counterexample to C1 as stated: with `tools/.venv` missing, the
`RuntimeError` raised by `ensure_venv` escapes `session.exec` instead of
being normalized into an `ExecResult`. -/
theorem exec_raises_on_missing_tools_venv :
    sessionExec (mkWorld false) ⟨"/ws", "/ws", []⟩ "tools run \"1 + 2\"" =
      Except.error (PyErr.runtimeError "tools venv 不存在，请在配置阶段创建 (.venv)") :=
  rfl

end AEP
